import Mathlib

/-!
# Verification of the YouTube keyword-search scraper (`src/main.py`)

Shallow embedding of the pure/algorithmic core of `src/main.py`:

* string utilities modelling the Python `str` / `urllib.parse` / `re`
  operations that the scraper uses (`splitFirstL` models `str.split(sep, 1)`,
  `splitChar` models `str.split(sep)` for one-character separators,
  `containsL` models the Python `in` substring test, `removeSubstr` models
  `str.replace(pat, "")`, `asciiLower` models `str.lower()` on the ASCII
  range);
* `pyUrlparse` — the fragment/scheme/netloc/path/query decomposition of
  `urllib.parse.urlparse` restricted to what `clean_video_url` and
  `extract_video_id` read from it;
* the scraper functions `clean_video_url`, `extract_video_id`,
  `parse_count_text_to_int`, `parse_iso8601_duration`, `save_dataset`,
  `is_page_unavailable`, `goto_and_ready`, `collect_urls_from_page`,
  `extract_video_metadata_hybrid` and the global-cap accumulation loop of
  `main`.

Strings are modelled as `List Char`.  Machine/browser interactions
(navigation, DOM queries) are out of the embedding's scope, so DOM state is
passed in explicitly (a `Page` record, per-round anchor snapshots) and the
Playwright extraction bodies are passed as `Except`-valued arguments whose
`error` case models a raised Python exception.
-/

namespace YtScrape

/-- `'` as a character (apostrophe), used in the unavailability phrases. -/
def apos : Char := Char.ofNat 39

/-- Model of Python `s.split(sep, 1)`: split at the first occurrence of
`sep`, returning the part before it and, when `sep` occurs, the part after
it.  (Only used with non-empty separators, as in the source.) -/
def splitFirstL (sep : List Char) : List Char → List Char × Option (List Char)
  | [] => ([], none)
  | c :: cs =>
    if sep.isPrefixOf (c :: cs) then ([], some ((c :: cs).drop sep.length))
    else
      let r := splitFirstL sep cs
      (c :: r.1, r.2)

/-- Model of Python `s.split(sep)` for a one-character separator `sep`
(always returns at least one piece, like Python). -/
def splitChar (sep : Char) : List Char → List (List Char)
  | [] => [[]]
  | c :: cs =>
    if c = sep then [] :: splitChar sep cs
    else
      match splitChar sep cs with
      | [] => [[c]]
      | p :: ps => (c :: p) :: ps

/-- Model of the Python substring test `needle in hay`. -/
def containsL (needle : List Char) : List Char → Bool
  | [] => needle.isEmpty
  | c :: cs => needle.isPrefixOf (c :: cs) || containsL needle cs

/-- Fuel-driven worker for `removeSubstr` (each step consumes at least one
character, so `s.length` fuel always suffices). -/
def removeSubstrAux (p0 : Char) (ps : List Char) : Nat → List Char → List Char
  | 0, s => s
  | _ + 1, [] => []
  | fuel + 1, c :: cs =>
    if (p0 :: ps).isPrefixOf (c :: cs) then removeSubstrAux p0 ps fuel (cs.drop ps.length)
    else c :: removeSubstrAux p0 ps fuel cs

/-- Model of Python `s.replace(pat, "")` for a non-empty pattern
`p0 :: ps`: delete every (left-to-right, non-overlapping) occurrence. -/
def removeSubstr (p0 : Char) (ps : List Char) (s : List Char) : List Char :=
  removeSubstrAux p0 ps s.length s

/-- Model of Python `str.lower()` on one character.  Python's `lower` is
full-Unicode; the scraper only ever matches ASCII phrases/suffixes and
strips non-ASCII characters, so the ASCII mapping is the faithful part. -/
def asciiLower (c : Char) : Char :=
  if 65 ≤ c.toNat ∧ c.toNat ≤ 90 then Char.ofNat (c.toNat + 32) else c

/-- `str.lower()` over a whole string. -/
def lowerL (s : List Char) : List Char := s.map asciiLower

/-- Python whitespace for `str.strip()` / `\s`. -/
def isSpace (c : Char) : Bool :=
  c = ' ' || c = '\t' || c = '\n' || c = '\r' || c = Char.ofNat 11 || c = Char.ofNat 12

/-- Model of Python `s.strip()`. -/
def stripWS (s : List Char) : List Char :=
  ((s.dropWhile isSpace).reverse.dropWhile isSpace).reverse

/-- Model of Python `s.strip("/")`. -/
def stripSlashes (s : List Char) : List Char :=
  ((s.dropWhile (· == '/')).reverse.dropWhile (· == '/')).reverse

/-- Model of Python `s.split("/")[0]`. -/
def firstSegment (s : List Char) : List Char := (splitChar '/' s).headD []

/-- The character class `[A-Za-z0-9_-]` of the video-id regexes. -/
def isVidChar (c : Char) : Bool := c.isAlphanum || c = '_' || c = '-'

/-- One attempted match of the regex `/shorts/([A-Za-z0-9_-]{11})` at the
head of `cs`: succeeds iff `cs` starts with `/shorts/` followed by at least
11 id characters, returning those 11 characters. -/
def tryShortsAt (cs : List Char) : Option (List Char) :=
  if cs.take 8 = "/shorts/".toList then
    let id := (cs.drop 8).take 11
    if id.length = 11 ∧ id.all isVidChar then some id else none
  else none

/-- Model of `re.search(r"/shorts/([A-Za-z0-9_-]{11})", s)`: try the match
at each position, left to right. -/
def findShortsIdL : List Char → Option (List Char)
  | [] => none
  | c :: cs =>
    match tryShortsAt (c :: cs) with
    | some id => some id
    | none => findShortsIdL cs

/-- Decimal value of a digit list, provided it is non-empty and all
digits (the success condition of Python `int(...)` on a digit string). -/
def digitsVal (ds : List Char) : Option Nat :=
  if ds ≠ [] ∧ ds.all Char.isDigit then
    some (ds.foldl (fun acc c => acc * 10 + (c.toNat - 48)) 0)
  else none

/-- Model of Python `int(s)` for a string: strip whitespace, optional
sign, then a non-empty run of digits (digit-group underscores are not
modelled; the scraper never feeds them). -/
def pyInt (s : List Char) : Option Int :=
  match stripWS s with
  | '-' :: ds => (digitsVal ds).map (fun n => -(n : Int))
  | '+' :: ds => (digitsVal ds).map (fun n => (n : Int))
  | ds => (digitsVal ds).map (fun n => (n : Int))

/-- The digit-or-dot class `[\d\.]` of `parse_count_text_to_int`. -/
def isNumChar (c : Char) : Bool := c.isDigit || c = '.'

/-- Model of Python `float(s)` on a digit/dot run, as an exact rational
`mantissa / 10 ^ scale`.  Succeeds exactly when Python's `float` does on
such a run: at most one dot and at least one digit.  (IEEE-754 rounding is
not modelled; for the count values this spec tests, the exact rational and
the IEEE result truncate to the same integer.) -/
def pyFloatParse (s : List Char) : Option (Nat × Nat) :=
  if s.all isNumChar ∧ s.count '.' ≤ 1 ∧ s.any Char.isDigit then
    let intPart := s.takeWhile (· ≠ '.')
    let fracPart := (s.dropWhile (· ≠ '.')).drop 1
    some (intPart.foldl (fun acc c => acc * 10 + (c.toNat - 48)) 0 * 10 ^ fracPart.length
            + fracPart.foldl (fun acc c => acc * 10 + (c.toNat - 48)) 0,
          fracPart.length)
  else none

/-- Model of `re.search(r'([\d\.]+)\s*(k|m|b)?', t)`: the first maximal
run of digits/dots, and the optional one-letter suffix that follows it
after optional whitespace. -/
def findNumToken : List Char → Option (List Char × Option Char)
  | [] => none
  | c :: cs =>
    if isNumChar c then
      let run := (c :: cs).takeWhile isNumChar
      let rest := ((c :: cs).drop run.length).dropWhile isSpace
      let suf :=
        match rest with
        | k :: _ => if k = 'k' ∨ k = 'm' ∨ k = 'b' then some k else none
        | [] => none
      some (run, suf)
    else findNumToken cs

/-! ## `urllib.parse.urlparse`, `clean_video_url`, `extract_video_id` -/

/-- The components of `urllib.parse.urlparse` that the scraper reads. -/
structure ParsedUrl where
  netloc : List Char
  path : List Char
  query : List Char
deriving DecidableEq, Repr

/-- Model of `urllib.parse.urlparse`, restricted to netloc/path/query:
the fragment is split off at the first `#`; a scheme followed by `://`
introduces a netloc (terminated by `/` or `?`); the query follows the
first `?` after the netloc.  Scheme-less strings are all path+query,
as in Python (`urlparse("youtu.be/x")` has empty netloc). -/
def pyUrlparse (url : List Char) : ParsedUrl :=
  let noFrag := (splitFirstL "#".toList url).1
  match splitFirstL "://".toList noFrag with
  | (_, some rest) =>
    let netloc := rest.takeWhile (fun c => c != '/' && c != '?')
    let after := rest.drop netloc.length
    let pq := splitFirstL "?".toList after
    ⟨netloc, pq.1, pq.2.getD []⟩
  | (_, none) =>
    let pq := splitFirstL "?".toList noFrag
    ⟨[], pq.1, pq.2.getD []⟩

/-- Model of `urllib.parse.parse_qs(query)["v"][0]` as used by the scraper
(`None` when the key `v` is absent): split on `&`, split each piece at the
first `=`, drop pieces without `=` or with an empty value (Python's
`keep_blank_values=False`), and take the first `v` value.  (Percent
decoding is not modelled; video ids never contain percent escapes.) -/
def parse_qs_v (q : List Char) : Option (List Char) :=
  let pairs := (splitChar '&' q).filterMap (fun part =>
    match splitFirstL "=".toList part with
    | (_, none) => none
    | (k, some v) => if v = [] then none else some (k, v))
  (pairs.find? (fun kv => kv.1 == "v".toList)).map (·.2)

/-- `clean_video_url` (src/main.py:391): canonical URL —
shorts path → canonical shorts URL; `youtu.be` shortlink → watch URL;
watch URL with a query → watch URL keeping only the first `v` value;
otherwise the original URL with its fragment stripped. -/
def clean_video_url (url : List Char) : List Char :=
  if url = [] then url
  else
    let parsed := pyUrlparse url
    match findShortsIdL parsed.path with
    | some vid => "https://www.youtube.com/shorts/".toList ++ vid
    | none =>
      let ytbe : Option (List Char) :=
        if parsed.netloc ≠ [] ∧ containsL "youtu.be".toList parsed.netloc then
          let vid := firstSegment (stripSlashes parsed.path)
          if vid ≠ [] then some ("https://www.youtube.com/watch?v=".toList ++ vid) else none
        else none
      match ytbe with
      | some r => r
      | none =>
        if containsL "watch".toList parsed.path ∧ parsed.query ≠ [] then
          match parse_qs_v parsed.query with
          | some v => "https://www.youtube.com/watch?v=".toList ++ v
          | none => (splitFirstL "#".toList url).1
        else (splitFirstL "#".toList url).1

/-- `extract_video_id` (src/main.py:423): `youtu.be` host → first path
segment (whatever it is); a `/watch` path with a query and a `v`
parameter → that value; otherwise the 11-character token of a
`/shorts/` path, if any. -/
def extract_video_id (url : List Char) : Option (List Char) :=
  let parsed := pyUrlparse url
  if parsed.netloc ≠ [] ∧ containsL "youtu.be".toList parsed.netloc then
    some (firstSegment (stripSlashes parsed.path))
  else
    let fromWatch : Option (List Char) :=
      if containsL "/watch".toList parsed.path ∧ parsed.query ≠ [] then
        parse_qs_v parsed.query
      else none
    match fromWatch with
    | some v => some v
    | none => findShortsIdL parsed.path

/-- `is_shorts_url` (src/main.py:438): `"/shorts/" in url.lower()`. -/
def is_shorts_url (url : List Char) : Bool :=
  containsL "/shorts/".toList (lowerL url)

/-! ## `parse_count_text_to_int` and duration parsing -/

/-- The token-matching half of `parse_count_text_to_int`, applied to the
already lower-cased/stripped/comma-free/ASCII-only text `t`: find the
first digit/dot run with an optional `k`/`m`/`b` suffix; convert via
`float` and scale; a failed `float` conversion (the `except` path) or the
all-non-digit fallback yields `None`. -/
def parse_count_core (t : List Char) : Option Nat :=
  match findNumToken t with
  | none =>
    let d := t.filter Char.isDigit
    if d = [] then none
    else some (d.foldl (fun acc c => acc * 10 + (c.toNat - 48)) 0)
  | some (run, suf) =>
    match pyFloatParse run with
    | none => none
    | some (mant, scale) =>
      let mult : Nat :=
        match suf with
        | some 'k' => 1000
        | some 'm' => 1000000
        | some 'b' => 1000000000
        | _ => 1
      some (mant * mult / 10 ^ scale)

/-- `parse_count_text_to_int` (src/main.py:154).  Empty input → `None`;
otherwise lower-case, strip, remove commas, remove non-ASCII and hand to
`parse_count_core`. -/
def parse_count_text_to_int (text : List Char) : Option Nat :=
  if text = [] then none
  else parse_count_core (((stripWS (lowerL text)).filter (· ≠ ',')).filter (fun c => c.toNat ≤ 127))

/-- `parse_iso8601_duration` (src/main.py:132): strip `PT`, split out the
`H`, `M` and `S` fields; any failing `int(...)` conversion makes the whole
call return `None` (the `except` path). -/
def parse_iso8601_duration (ds : List Char) : Option Int :=
  if ds = [] then none
  else
    let s0 := removeSubstr 'P' "T".toList ds
    let hPart : Option (Int × List Char) :=
      if s0.contains 'H' then
        let parts := splitChar 'H' s0
        (pyInt (parts.headD [])).map (fun h => (h, (parts[1]?).getD []))
      else some (0, s0)
    match hPart with
    | none => none
    | some (h, s1) =>
      let mPart : Option (Int × List Char) :=
        if s1.contains 'M' then
          let parts := splitChar 'M' s1
          (pyInt (parts.headD [])).map (fun m => (m, (parts[1]?).getD []))
        else some (0, s1)
      match mPart with
      | none => none
      | some (m, s2) =>
        let sPart : Option Int :=
          if s2.contains 'S' then pyInt (s2.filter (· != 'S'))
          else some 0
        match sPart with
        | none => none
        | some sec => some (h * 3600 + m * 60 + sec)

/-- The duration-badge normalisation inside `extract_video_metadata_hybrid`
(src/main.py:1102-1111): an ISO-8601 `PT...` code is parsed by
`parse_iso8601_duration`; otherwise a colon display string `MM:SS` or
`H:MM:SS` is converted; anything else (or a failing `int`) leaves the
duration unset (`None`). -/
def parse_duration_text_dom (s : List Char) : Option Int :=
  if "PT".toList.isPrefixOf s then parse_iso8601_duration s
  else
    let parts := splitChar ':' s
    if parts.length = 2 then
      match pyInt (parts.headD []), pyInt ((parts[1]?).getD []) with
      | some a, some b => some (a * 60 + b)
      | _, _ => none
    else if parts.length = 3 then
      match pyInt (parts.headD []), pyInt ((parts[1]?).getD []), pyInt ((parts[2]?).getD []) with
      | some a, some b, some c => some (a * 3600 + b * 60 + c)
      | _, _, _ => none
    else none

/-! ## `save_dataset` — run-scoped dedup (src/main.py:193-232)

A dataset record, projected to the fields `save_dataset` inspects: the
`id` and `video_id` entries (`none` models both an absent key and `None`;
`some []` models the falsy empty string) plus an opaque payload standing
for all other fields. -/

structure DataItem where
  id : Option (List Char)
  video_id : Option (List Char)
  payload : Nat
deriving DecidableEq, Repr

/-- Python truthiness of an optional string. -/
def pyTruthy : Option (List Char) → Bool
  | none => false
  | some s => !s.isEmpty

/-- `it.get("id") or it.get("video_id")`, normalised so that `none` means
the result is falsy (`if not vid` in the source). -/
def getVid (it : DataItem) : Option (List Char) :=
  let v := if pyTruthy it.id then it.id else it.video_id
  if pyTruthy v then v else none

/-- One item of the `save_dataset` loop: an identifier-less item is
forwarded untouched; an item whose id is already in `SAVED_IDS` is
dropped; otherwise the id is added and the item forwarded. -/
def saveStep (saved : List (List Char)) (it : DataItem) :
    List (List Char) × Option DataItem :=
  match getVid it with
  | none => (saved, some it)
  | some v => if v ∈ saved then (saved, none) else (v :: saved, some it)

/-- `save_dataset` (src/main.py:193-232) as a state transformer on the
run-scoped `SAVED_IDS` set (modelled as a list): returns the updated set
and `new_items`, the records forwarded to the sink. -/
def save_dataset : List (List Char) → List DataItem → List (List Char) × List DataItem
  | saved, [] => (saved, [])
  | saved, it :: rest =>
    match getVid it with
    | none =>
      let r := save_dataset saved rest
      (r.1, it :: r.2)
    | some v =>
      if v ∈ saved then save_dataset saved rest
      else
        let r := save_dataset (v :: saved) rest
        (r.1, it :: r.2)

/-- A run: a sequence of `save_dataset` calls threading `SAVED_IDS`,
concatenating everything forwarded to the sink. -/
def runSave : List (List Char) → List (List DataItem) → List (List Char) × List DataItem
  | saved, [] => (saved, [])
  | saved, b :: bs =>
    let r := save_dataset saved b
    let rs := runSave r.1 bs
    (rs.1, r.2 ++ rs.2)

/-- Number of forwarded records carrying the identifier `v`. -/
def countVid (v : List Char) (items : List DataItem) : Nat :=
  (items.filter (fun it => getVid it == some v)).length

/-! ## Page readiness (src/main.py:273-385)

A rendered page, projected to the signals that `is_page_unavailable` and
`goto_and_ready` read.  DOM querying is an external collaborator, so the
signals are fields; the page is not mutated between the checks of one
`goto_and_ready` call. -/

structure Page where
  /-- `page.locator("ytd-page-not-found-renderer").count() > 0`. -/
  notFoundRenderer : Bool
  /-- `page.locator("body").inner_text()`. -/
  bodyText : List Char
  /-- `page.content() or ""`. -/
  content : List Char
  /-- `window.ytInitialPlayerResponse`/`window.ytInitialData` present. -/
  hasInitData : Bool
  /-- one of the fallback structural selectors is visible. -/
  fallbackSelectorVisible : Bool
  /-- `document.readyState` is `complete`/`interactive`. -/
  docReady : Bool
deriving Repr

/-- `"this page isn't available"`. -/
def phrase1 : List Char := "this page isn".toList ++ [apos] ++ "t available".toList

/-- `"sorry about that"`. -/
def phrase2 : List Char := "sorry about that".toList

/-- `"channel is not available"`. -/
def phrase3 : List Char := "channel is not available".toList

/-- The body-text phrase test of `is_page_unavailable`. -/
def unavailablePhraseHit (t : List Char) : Bool :=
  containsL phrase1 t || containsL phrase2 t || containsL phrase3 t

/-- `is_page_unavailable` (src/main.py:273-288): error-page element, or a
known phrase in the lowered body text, or a known phrase in the lowered
page markup. -/
def is_page_unavailable (p : Page) : Bool :=
  p.notFoundRenderer
    || (!p.bodyText.isEmpty && unavailablePhraseHit (lowerL p.bodyText))
    || containsL "page not found".toList (lowerL p.content)
    || containsL "channel unavailable".toList (lowerL p.content)

/-- The readiness outcomes of spec §4.1.  The code's `goto_and_ready`
returns `None` at several distinct points; each return point is labelled
with the outcome the spec assigns to it (`Stopped` is the
`raise Exception("Stop requested")` path). -/
inductive ReadyOutcome
  | Stopped
  | Unavailable
  | Ready
  | DegradedReady
deriving DecidableEq, Repr

/-- The HTML-keyword scan of `goto_and_ready` (src/main.py:361-368). -/
def htmlKeywordHit (p : Page) : Bool :=
  containsL "/shorts/".toList p.content || containsL "watch?v=".toList p.content
    || containsL "ytd-rich-grid-renderer".toList p.content

/-- `goto_and_ready` (src/main.py:291-385) as a decision cascade over the
page signals (navigation itself is the external collaborator): stop
check, early unavailable check, `ytInitial*` wait, fallback selectors,
document-ready recheck, HTML keyword scan, final unavailable recheck,
degraded fall-through. -/
def goto_and_ready (stopFlag : Bool) (p : Page) : ReadyOutcome :=
  if stopFlag then .Stopped
  else if is_page_unavailable p then .Unavailable
  else if p.hasInitData then .Ready
  else if p.fallbackSelectorVisible then .Ready
  else if p.docReady && p.hasInitData then .Ready
  else if htmlKeywordHit p then .DegradedReady
  else if is_page_unavailable p then .Unavailable
  else .DegradedReady

/-! ## `collect_urls_from_page` — the bounded harvesting loop
(src/main.py:1348-1425)

The DOM anchor snapshot of round `r` is `domAt r` (the result of the
`page.evaluate` href query after `r` scrolls).  The state is the shared
`links_seen` set (modelled as a list) and the `collected` list. -/

/-- The filtering step on one canonicalised URL: require a video id,
require the category pattern, and require the URL to be unseen; then mark
it seen and collect it. -/
def considerUrl (pattern : List Char) (st : List (List Char) × List (List Char))
    (full : List Char) : List (List Char) × List (List Char) :=
  match extract_video_id full with
  | none => st
  | some _ =>
    if containsL pattern full ∧ full ∉ st.1 then (full :: st.1, st.2 ++ [full])
    else st

/-- One href of the inner `for h in hrefs` loop: stop appending at the
cap; absolutise, canonicalise, then filter via `considerUrl`. -/
def processHref (pattern : List Char) (cap : Nat)
    (st : List (List Char) × List (List Char)) (h : List Char) :
    List (List Char) × List (List Char) :=
  if st.2.length ≥ cap then st
  else considerUrl pattern st (clean_video_url
    (if "http".toList.isPrefixOf h then h else "https://www.youtube.com".toList ++ h))

/-- The scroll loop: up to `fuel` (= `max_rounds`) rounds, processing the
round's snapshot and stopping as soon as the cap is reached. -/
def collectRounds (domAt : Nat → List (List Char)) (pattern : List Char) (cap : Nat) :
    Nat → Nat → List (List Char) × List (List Char) →
    List (List Char) × List (List Char)
  | 0, _, st => st
  | fuel + 1, round, st =>
    if st.2.length < cap then
      let st' := (domAt round).foldl (processHref pattern cap) st
      if st'.2.length ≥ cap then st'
      else collectRounds domAt pattern cap fuel (round + 1) st'
    else st

/-- `collect_urls_from_page` (src/main.py:1348-1425): non-positive cap →
nothing; unavailable page → nothing; otherwise at most 60 rounds of
harvesting.  Returns `(collected, links_seen)`. -/
def collect_urls_from_page (p : Page) (domAt : Nat → List (List Char))
    (pattern : List Char) (cap : Nat) (seen : List (List Char)) :
    List (List Char) × List (List Char) :=
  if cap = 0 then ([], seen)
  else if is_page_unavailable p then ([], seen)
  else
    let st := collectRounds domAt pattern cap 60 0 (seen, [])
    (st.2, st.1)

/-! ## Metadata resolution boundary (src/main.py:532-909, 915-1186)

The record type is projected to the three fields the error contract fixes
(`video_id`, `video_url`, `data_source`); the Playwright extraction
bodies touch the DOM, so each `try` body is passed as an `Except` value
whose `error` case models a raised exception. -/

inductive DataSource
  | youtube_api
  | noneSource
  | playwright_shorts
  | playwright_playerjson
  | playwright_full
  | errorSource
deriving DecidableEq, Repr

structure MetaRecord where
  video_id : List Char
  video_url : List Char
  data_source : DataSource
deriving DecidableEq, Repr

/-- `extract_shorts_metadata` (src/main.py:532-909): API branch when the
API returned data, otherwise the Playwright `try` body; a raised body is
caught and turned into the minimal `data_source = "error"` record. -/
def extract_shorts_metadata (video_id url : List Char)
    (apiAvailable : Bool) (pwBody : Except Unit Unit) : MetaRecord :=
  if apiAvailable then ⟨video_id, url, .youtube_api⟩
  else
    match pwBody with
    | .ok _ => ⟨video_id, url, .playwright_shorts⟩
    | .error _ => ⟨video_id, url, .errorSource⟩

/-- `extract_video_metadata_hybrid` (src/main.py:915-1186): API branch;
no-page branch (`data_source = "none"`); shorts routing; otherwise the
watch-page Playwright `try` body, whose successful result's
`data_source` is `playwright_playerjson` or `playwright_full` (the `ok`
payload) and whose raised exception is caught into the minimal
`data_source = "error"` record. -/
def extract_video_metadata_hybrid (video_id url : List Char)
    (apiAvailable hasPage : Bool)
    (shortsBody : Except Unit Unit) (watchBody : Except Unit DataSource) : MetaRecord :=
  if apiAvailable then ⟨video_id, url, .youtube_api⟩
  else if !hasPage then ⟨video_id, url, .noneSource⟩
  else if is_shorts_url url then extract_shorts_metadata video_id url apiAvailable shortsBody
  else
    match watchBody with
    | .ok ds => ⟨video_id, url, ds⟩
    | .error _ => ⟨video_id, url, .errorSource⟩

/-! ## The orchestrator's global-cap accumulation (src/main.py:1908-1946)

`main` accumulates `total_scraped` over its target loop; a target is
dispatched only while the total is below `global_max`, and the dispatched
target contributes however many results its own caps allowed.  The
per-target result count is the abstracted in-flight work (browser-bound),
passed as the list `counts`. -/

def mainUrlLoop (globalMax : Nat) : List Nat → Nat → Nat
  | [], total => total
  | n :: rest, total =>
    if total ≥ globalMax then total
    else mainUrlLoop globalMax rest (total + n)

/-- The final stage of `scrape_channel_all_videos` (src/main.py:1449-1466):
the collected URLs are truncated to `total_cap = input_options["maxResults"]`
(the same value as the orchestrator's global cap) and each surviving
extraction contributes one row — the in-flight target's own bound. -/
def scrape_channel_take (allUrls : List (List Char)) (maxResults : Nat)
    (extractOk : List Char → Bool) : List (List Char) :=
  (allUrls.take maxResults).filter extractOk

/-! ## Generic lemmas about the string-operation models -/

lemma isPrefixOf_length_le {sep s : List Char} (h : sep.isPrefixOf s = true) :
    sep.length ≤ s.length :=
  (List.isPrefixOf_iff_prefix.1 h).length_le

lemma isPrefixOf_append_left {sep s : List Char} (t : List Char)
    (h : sep.isPrefixOf s = true) : sep.isPrefixOf (s ++ t) = true :=
  List.isPrefixOf_iff_prefix.2 ((List.isPrefixOf_iff_prefix.1 h).trans (List.prefix_append s t))

lemma isPrefixOf_append_eq {sep : List Char} : ∀ {s : List Char} (t : List Char),
    sep.length ≤ s.length → sep.isPrefixOf (s ++ t) = sep.isPrefixOf s := by
  induction sep with
  | nil => intro s t _; simp [List.isPrefixOf]
  | cons c cs ih =>
    intro s t hle
    cases s with
    | nil => simp at hle
    | cons d ds =>
      simp only [List.cons_append, List.isPrefixOf, List.append_eq]
      rw [ih t (by simpa using hle)]

lemma splitFirstL_some_length_le {sep : List Char} : ∀ {s a b : List Char},
    splitFirstL sep s = (a, some b) → sep.length ≤ s.length := by
  intro s
  induction s with
  | nil => intro a b h; simp [splitFirstL] at h
  | cons c cs ih =>
    intro a b h
    by_cases hpre : sep.isPrefixOf (c :: cs) = true
    · exact isPrefixOf_length_le hpre
    · simp only [splitFirstL, if_neg hpre, Prod.mk.injEq] at h
      have h2 : splitFirstL sep cs = ((splitFirstL sep cs).1, some b) := by
        rw [← h.2]
      exact le_trans (ih h2) (by simp)

lemma splitFirstL_append_some {sep : List Char} : ∀ {a a1 a2 : List Char} (b : List Char),
    splitFirstL sep a = (a1, some a2) →
    splitFirstL sep (a ++ b) = (a1, some (a2 ++ b)) := by
  intro a
  induction a with
  | nil => intro a1 a2 b h; simp [splitFirstL] at h
  | cons c cs ih =>
    intro a1 a2 b h
    by_cases hpre : sep.isPrefixOf (c :: cs) = true
    · simp only [splitFirstL, if_pos hpre, Prod.mk.injEq] at h
      have hle : sep.length ≤ (c :: cs).length := isPrefixOf_length_le hpre
      simp only [List.cons_append]
      rw [splitFirstL]
      rw [if_pos (by simpa [List.cons_append] using isPrefixOf_append_left b hpre)]
      rw [← List.cons_append, List.drop_append_of_le_length hle]
      obtain ⟨h1, h2⟩ := h
      have ha2 := Option.some.inj h2
      subst ha2
      subst h1
      rfl
    · simp only [splitFirstL, if_neg hpre, Prod.mk.injEq] at h
      have h2 : splitFirstL sep cs = ((splitFirstL sep cs).1, some a2) := by
        rw [← h.2]
      have hle : sep.length ≤ cs.length := splitFirstL_some_length_le h2
      simp only [List.cons_append]
      rw [splitFirstL]
      rw [if_neg (by
        rw [show c :: (cs ++ b) = (c :: cs) ++ b from rfl,
          isPrefixOf_append_eq b (le_trans hle (by simp))]
        exact hpre)]
      rw [ih b h2]
      simp [← h.1]

lemma splitFirstL_none_of_not_mem {c0 : Char} {rest : List Char} : ∀ {s : List Char},
    c0 ∉ s → splitFirstL (c0 :: rest) s = (s, none) := by
  intro s
  induction s with
  | nil => intro _; rfl
  | cons c cs ih =>
    intro h
    have hc : c0 ≠ c := fun he => h (he ▸ List.mem_cons_self c cs)
    rw [splitFirstL]
    rw [if_neg (by simp [List.isPrefixOf, hc])]
    rw [ih (fun hm => h (List.mem_cons_of_mem c hm))]

lemma splitChar_not_mem {sep : Char} : ∀ {s : List Char},
    sep ∉ s → splitChar sep s = [s] := by
  intro s
  induction s with
  | nil => intro _; rfl
  | cons c cs ih =>
    intro h
    have hc : c ≠ sep := fun he => h (he ▸ List.mem_cons_self c cs)
    rw [splitChar, if_neg hc, ih (fun hm => h (List.mem_cons_of_mem c hm))]

lemma splitChar_append {sep : Char} : ∀ {a : List Char} (b : List Char),
    sep ∉ a → splitChar sep (a ++ sep :: b) = a :: splitChar sep b := by
  intro a
  induction a with
  | nil =>
    intro b _
    simp only [List.nil_append]
    rw [splitChar, if_pos rfl]
  | cons c cs ih =>
    intro b h
    have hc : c ≠ sep := fun he => h (he ▸ List.mem_cons_self c cs)
    simp only [List.cons_append]
    rw [splitChar, if_neg hc, ih b (fun hm => h (List.mem_cons_of_mem c hm))]

lemma takeWhile_append_of_exists {p : Char → Bool} : ∀ {a : List Char} (b : List Char),
    (∃ c ∈ a, p c = false) → (a ++ b).takeWhile p = a.takeWhile p := by
  intro a
  induction a with
  | nil => intro b h; simp at h
  | cons c cs ih =>
    intro b h
    by_cases hp : p c
    · simp only [List.cons_append, List.takeWhile_cons, hp]
      rcases h with ⟨d, hd, hdp⟩
      rcases List.mem_cons.1 hd with he | hm
      · rw [he] at hdp; rw [hdp] at hp; simp at hp
      · rw [ih b ⟨d, hm, hdp⟩]
    · simp only [List.cons_append, List.takeWhile_cons]
      rw [Bool.not_eq_true] at hp
      simp [hp]

lemma dropWhile_eq_self_of_forall {p : Char → Bool} {s : List Char}
    (h : ∀ c ∈ s, p c = false) : s.dropWhile p = s := by
  cases s with
  | nil => rfl
  | cons c cs => simp [List.dropWhile_cons, h c (List.mem_cons_self c cs)]

lemma not_mem_of_vid {id : List Char} (hvid : ∀ c ∈ id, isVidChar c = true)
    {d : Char} (hd : isVidChar d = false) : d ∉ id := by
  intro hm
  rw [hvid d hm] at hd
  simp at hd

lemma stripSlashes_vid {s : List Char} (hvid : ∀ c ∈ s, isVidChar c = true) :
    stripSlashes s = s := by
  have hns : ∀ c ∈ s, (c == '/') = false := by
    intro c hc
    have h1 := hvid c hc
    have : c ≠ '/' := by
      intro he; rw [he] at h1; exact absurd h1 (by decide)
    simpa using this
  unfold stripSlashes
  rw [dropWhile_eq_self_of_forall hns,
    dropWhile_eq_self_of_forall (fun c hc => hns c (List.mem_reverse.1 hc)),
    List.reverse_reverse]

lemma firstSegment_vid {s : List Char} (hvid : ∀ c ∈ s, isVidChar c = true) :
    firstSegment s = s := by
  unfold firstSegment
  rw [splitChar_not_mem (not_mem_of_vid hvid (by decide))]
  rfl

/-! ## Lemmas about the `/shorts/` id regex and `parse_qs` -/

lemma findShortsIdL_vid_none : ∀ {s : List Char},
    (∀ c ∈ s, isVidChar c = true) → findShortsIdL s = none := by
  intro s
  induction s with
  | nil => intro _; rfl
  | cons c cs ih =>
    intro h
    have htry : tryShortsAt (c :: cs) = none := by
      unfold tryShortsAt
      rw [if_neg]
      intro he
      have hc : c = '/' := by
        have := congrArg (fun l => l.headD ' ') he
        simpa [List.take_succ_cons] using this
      have := h c (List.mem_cons_self c cs)
      rw [hc] at this
      exact absurd this (by decide)
    rw [findShortsIdL, htry]
    exact ih (fun d hd => h d (List.mem_cons_of_mem c hd))

lemma findShortsIdL_slash_vid {s : List Char}
    (h : ∀ c ∈ s, isVidChar c = true) : findShortsIdL ('/' :: s) = none := by
  have htry : tryShortsAt ('/' :: s) = none := by
    unfold tryShortsAt
    rw [if_neg]
    intro he
    have h7 : s.take 7 = "shorts/".toList := by
      have := congrArg List.tail he
      simpa [List.take_succ_cons] using this
    have hmem : '/' ∈ s.take 7 := by rw [h7]; decide
    have := h '/' (List.take_subset 7 s hmem)
    exact absurd this (by decide)
  rw [findShortsIdL, htry]
  exact findShortsIdL_vid_none h

lemma findShortsIdL_canonical {id : List Char} (hlen : id.length = 11)
    (hvid : ∀ c ∈ id, isVidChar c = true) :
    findShortsIdL ("/shorts/".toList ++ id) = some id := by
  have htry : tryShortsAt ("/shorts/".toList ++ id) = some id := by
    unfold tryShortsAt
    have ht : ("/shorts/".toList ++ id).take 8 = "/shorts/".toList := by
      rw [show (8 : Nat) = ("/shorts/".toList).length from rfl]
      exact List.take_left _ _
    have hd : ("/shorts/".toList ++ id).drop 8 = id := by
      rw [show (8 : Nat) = ("/shorts/".toList).length from rfl]
      exact List.drop_left _ _
    rw [if_pos ht, hd, show id.take 11 = id from by rw [← hlen, List.take_length]]
    rw [if_pos ⟨hlen, List.all_eq_true.2 hvid⟩]
  rw [show ("/shorts/".toList ++ id) = '/' :: ("shorts/".toList ++ id) from rfl] at htry ⊢
  rw [findShortsIdL, htry]

lemma findShortsIdL_some_spec : ∀ {s id : List Char},
    findShortsIdL s = some id → id.length = 11 ∧ ∀ c ∈ id, isVidChar c = true := by
  intro s
  induction s with
  | nil => intro id h; simp [findShortsIdL] at h
  | cons c cs ih =>
    intro id h
    rw [findShortsIdL] at h
    cases htry : tryShortsAt (c :: cs) with
    | none => rw [htry] at h; exact ih h
    | some i =>
      rw [htry] at h
      have hi : i = id := Option.some.inj h
      subst hi
      unfold tryShortsAt at htry
      by_cases h8 : (c :: cs).take 8 = "/shorts/".toList
      · rw [if_pos h8] at htry
        by_cases hcond : (((c :: cs).drop 8).take 11).length = 11
            ∧ (((c :: cs).drop 8).take 11).all isVidChar = true
        · rw [if_pos hcond] at htry
          have := Option.some.inj htry
          subst this
          exact ⟨hcond.1, List.all_eq_true.1 hcond.2⟩
        · rw [if_neg hcond] at htry; simp at htry
      · rw [if_neg h8] at htry; simp at htry

lemma parse_qs_v_id {id : List Char} (hvid : ∀ c ∈ id, isVidChar c = true)
    (hne : id ≠ []) : parse_qs_v ('v' :: '=' :: id) = some id := by
  have hamp : '&' ∉ ('v' :: '=' :: id) := by
    intro hm
    rcases List.mem_cons.1 hm with he | hm2
    · exact absurd he (by decide)
    rcases List.mem_cons.1 hm2 with he | hm3
    · exact absurd he (by decide)
    · exact not_mem_of_vid hvid (by decide) hm3
  have heq : splitFirstL "=".toList ('v' :: '=' :: id) = (['v'], some id) := by
    rw [show "=".toList = ['='] from rfl]
    rw [splitFirstL]
    rw [if_neg (by simp [List.isPrefixOf])]
    rw [splitFirstL]
    rw [if_pos (by simp [List.isPrefixOf])]
    rfl
  unfold parse_qs_v
  rw [splitChar_not_mem hamp]
  simp only [List.filterMap_cons, heq]
  rw [if_neg (by simp [hne])]
  simp [List.find?_cons]

lemma parse_qs_v_id_amp {id : List Char} (extra : List Char)
    (hvid : ∀ c ∈ id, isVidChar c = true) (hne : id ≠ []) :
    parse_qs_v ('v' :: '=' :: (id ++ '&' :: extra)) = some id := by
  have hamp : '&' ∉ ('v' :: '=' :: id) := by
    intro hm
    rcases List.mem_cons.1 hm with he | hm2
    · exact absurd he (by decide)
    rcases List.mem_cons.1 hm2 with he | hm3
    · exact absurd he (by decide)
    · exact not_mem_of_vid hvid (by decide) hm3
  have heq : splitFirstL "=".toList ('v' :: '=' :: id) = (['v'], some id) := by
    rw [show "=".toList = ['='] from rfl]
    rw [splitFirstL]
    rw [if_neg (by simp [List.isPrefixOf])]
    rw [splitFirstL]
    rw [if_pos (by simp [List.isPrefixOf])]
    rfl
  unfold parse_qs_v
  rw [show ('v' :: '=' :: (id ++ '&' :: extra)) = ('v' :: '=' :: id) ++ '&' :: extra from rfl]
  rw [splitChar_append extra hamp]
  simp only [List.filterMap_cons, heq]
  rw [if_neg (by simp [hne])]
  simp [List.find?_cons]

/-! ## `pyUrlparse` on the three canonical URL shapes -/

lemma pyUrlparse_watch {s : List Char} (h : '#' ∉ s) :
    pyUrlparse ("https://www.youtube.com/watch?v=".toList ++ s)
      = ⟨"www.youtube.com".toList, "/watch".toList, "v=".toList ++ s⟩ := by
  have e1 : splitFirstL "#".toList ("https://www.youtube.com/watch?v=".toList ++ s)
      = ("https://www.youtube.com/watch?v=".toList ++ s, none) := by
    rw [show "#".toList = ['#'] from rfl]
    exact splitFirstL_none_of_not_mem (by
      intro hm
      rcases List.mem_append.1 hm with hm1 | hm2
      · exact absurd hm1 (by decide)
      · exact h hm2)
  have e2 : splitFirstL "://".toList ("https://www.youtube.com/watch?v=".toList ++ s)
      = ("https".toList, some ("www.youtube.com/watch?v=".toList ++ s)) :=
    splitFirstL_append_some s (by decide)
  have e3 : ("www.youtube.com/watch?v=".toList ++ s).takeWhile
        (fun c => c != '/' && c != '?') = "www.youtube.com".toList := by
    rw [takeWhile_append_of_exists s ⟨'/', by decide, by decide⟩]
    decide
  have e4 : ("www.youtube.com/watch?v=".toList ++ s).drop
        ("www.youtube.com".toList).length = "/watch?v=".toList ++ s := by
    rw [List.drop_append_of_le_length (by decide)]
    rfl
  have e5 : splitFirstL "?".toList ("/watch?v=".toList ++ s)
      = ("/watch".toList, some ("v=".toList ++ s)) :=
    splitFirstL_append_some s (by decide)
  unfold pyUrlparse
  rw [e1]
  simp only
  rw [e2]
  simp only
  rw [e3, e4, e5]
  rfl

lemma pyUrlparse_shorts {s : List Char} (h1 : '#' ∉ s) (h2 : '?' ∉ s) :
    pyUrlparse ("https://www.youtube.com/shorts/".toList ++ s)
      = ⟨"www.youtube.com".toList, "/shorts/".toList ++ s, []⟩ := by
  have e1 : splitFirstL "#".toList ("https://www.youtube.com/shorts/".toList ++ s)
      = ("https://www.youtube.com/shorts/".toList ++ s, none) := by
    rw [show "#".toList = ['#'] from rfl]
    exact splitFirstL_none_of_not_mem (by
      intro hm
      rcases List.mem_append.1 hm with hm1 | hm2
      · exact absurd hm1 (by decide)
      · exact h1 hm2)
  have e2 : splitFirstL "://".toList ("https://www.youtube.com/shorts/".toList ++ s)
      = ("https".toList, some ("www.youtube.com/shorts/".toList ++ s)) :=
    splitFirstL_append_some s (by decide)
  have e3 : ("www.youtube.com/shorts/".toList ++ s).takeWhile
        (fun c => c != '/' && c != '?') = "www.youtube.com".toList := by
    rw [takeWhile_append_of_exists s ⟨'/', by decide, by decide⟩]
    decide
  have e4 : ("www.youtube.com/shorts/".toList ++ s).drop
        ("www.youtube.com".toList).length = "/shorts/".toList ++ s := by
    rw [List.drop_append_of_le_length (by decide)]
    rfl
  have e5 : splitFirstL "?".toList ("/shorts/".toList ++ s)
      = ("/shorts/".toList ++ s, none) := by
    rw [show "?".toList = ['?'] from rfl]
    exact splitFirstL_none_of_not_mem (by
      intro hm
      rcases List.mem_append.1 hm with hm1 | hm2
      · exact absurd hm1 (by decide)
      · exact h2 hm2)
  unfold pyUrlparse
  rw [e1]
  simp only
  rw [e2]
  simp only
  rw [e3, e4, e5]
  rfl

lemma pyUrlparse_ytbe {s : List Char} (h1 : '#' ∉ s) (h2 : '?' ∉ s) :
    pyUrlparse ("https://youtu.be/".toList ++ s)
      = ⟨"youtu.be".toList, '/' :: s, []⟩ := by
  have e1 : splitFirstL "#".toList ("https://youtu.be/".toList ++ s)
      = ("https://youtu.be/".toList ++ s, none) := by
    rw [show "#".toList = ['#'] from rfl]
    exact splitFirstL_none_of_not_mem (by
      intro hm
      rcases List.mem_append.1 hm with hm1 | hm2
      · exact absurd hm1 (by decide)
      · exact h1 hm2)
  have e2 : splitFirstL "://".toList ("https://youtu.be/".toList ++ s)
      = ("https".toList, some ("youtu.be/".toList ++ s)) :=
    splitFirstL_append_some s (by decide)
  have e3 : ("youtu.be/".toList ++ s).takeWhile
        (fun c => c != '/' && c != '?') = "youtu.be".toList := by
    rw [takeWhile_append_of_exists s ⟨'/', by decide, by decide⟩]
    decide
  have e4 : ("youtu.be/".toList ++ s).drop
        ("youtu.be".toList).length = '/' :: s := by
    rw [List.drop_append_of_le_length (by decide)]
    rfl
  have e5 : splitFirstL "?".toList ('/' :: s) = ('/' :: s, none) := by
    rw [show "?".toList = ['?'] from rfl]
    exact splitFirstL_none_of_not_mem (by
      intro hm
      rcases List.mem_cons.1 hm with he | hm2
      · exact absurd he (by decide)
      · exact h2 hm2)
  unfold pyUrlparse
  rw [e1]
  simp only
  rw [e2]
  simp only
  rw [e3, e4, e5]
  rfl

/-! ## `clean_video_url` on the three canonical URL shapes -/

lemma lit_append_ne_nil {a : List Char} (b : List Char) (ha : a ≠ []) : a ++ b ≠ [] := by
  intro h
  exact ha (List.append_eq_nil.1 h).1

lemma clean_watch {id : List Char} (tail : List Char)
    (hne : id ≠ []) (hvid : ∀ c ∈ id, isVidChar c = true)
    (htail : tail = [] ∨ ∃ extra, tail = '&' :: extra ∧ '#' ∉ extra) :
    clean_video_url ("https://www.youtube.com/watch?v=".toList ++ (id ++ tail))
      = "https://www.youtube.com/watch?v=".toList ++ id := by
  have hhash : '#' ∉ id ++ tail := by
    intro hm
    rcases List.mem_append.1 hm with hm1 | hm2
    · exact not_mem_of_vid hvid (by decide) hm1
    · rcases htail with rfl | ⟨extra, rfl, hx⟩
      · simp at hm2
      · rcases List.mem_cons.1 hm2 with he | hm3
        · exact absurd he (by decide)
        · exact hx hm3
  have hp := pyUrlparse_watch (s := id ++ tail) hhash
  have f0 : "https://www.youtube.com/watch?v=".toList ++ (id ++ tail) ≠ [] :=
    lit_append_ne_nil _ (by decide)
  have f1 : findShortsIdL "/watch".toList = none := by decide
  have f2 : containsL "youtu.be".toList "www.youtube.com".toList = false := by decide
  have f3 : containsL "watch".toList "/watch".toList = true := by decide
  have f4 : ("v=".toList ++ (id ++ tail)) ≠ [] := lit_append_ne_nil _ (by decide)
  have f5 : parse_qs_v ("v=".toList ++ (id ++ tail)) = some id := by
    rcases htail with rfl | ⟨extra, rfl, hx⟩
    · rw [List.append_nil, show "v=".toList ++ id = 'v' :: '=' :: id from rfl]
      exact parse_qs_v_id hvid hne
    · rw [show "v=".toList ++ (id ++ '&' :: extra) = 'v' :: '=' :: (id ++ '&' :: extra) from rfl]
      exact parse_qs_v_id_amp extra hvid hne
  simp only [clean_video_url, hp, f1, f2, f3, f4, f5, if_neg f0]
  simp

lemma clean_ytbe {id : List Char} (hne : id ≠ [])
    (hvid : ∀ c ∈ id, isVidChar c = true) :
    clean_video_url ("https://youtu.be/".toList ++ id)
      = "https://www.youtube.com/watch?v=".toList ++ id := by
  have hp := pyUrlparse_ytbe (s := id)
    (not_mem_of_vid hvid (by decide)) (not_mem_of_vid hvid (by decide))
  have f0 : "https://youtu.be/".toList ++ id ≠ [] := lit_append_ne_nil _ (by decide)
  have f1 : findShortsIdL ('/' :: id) = none := findShortsIdL_slash_vid hvid
  have f2 : containsL "youtu.be".toList "youtu.be".toList = true := by decide
  have hns : ∀ c ∈ id, (c == '/') = false := by
    intro c hc
    have h1 := hvid c hc
    have : c ≠ '/' := by
      intro he; rw [he] at h1; exact absurd h1 (by decide)
    simpa using this
  have f3 : stripSlashes ('/' :: id) = id := by
    unfold stripSlashes
    rw [List.dropWhile_cons]
    simp only [show (('/' : Char) == '/') = true from rfl, if_true]
    rw [dropWhile_eq_self_of_forall hns,
      dropWhile_eq_self_of_forall (fun c hc => hns c (List.mem_reverse.1 hc)),
      List.reverse_reverse]
  have f4 : firstSegment id = id := firstSegment_vid hvid
  simp only [clean_video_url, hp, f1, f2, f3, f4, if_neg f0]
  simp [hne]

lemma clean_shorts {id : List Char} (hlen : id.length = 11)
    (hvid : ∀ c ∈ id, isVidChar c = true) :
    clean_video_url ("https://www.youtube.com/shorts/".toList ++ id)
      = "https://www.youtube.com/shorts/".toList ++ id := by
  have hp := pyUrlparse_shorts (s := id)
    (not_mem_of_vid hvid (by decide)) (not_mem_of_vid hvid (by decide))
  have f0 : "https://www.youtube.com/shorts/".toList ++ id ≠ [] :=
    lit_append_ne_nil _ (by decide)
  have f1 : findShortsIdL ("/shorts/".toList ++ id) = some id :=
    findShortsIdL_canonical hlen hvid
  simp only [clean_video_url, hp, f1, if_neg f0]

/-- C8: URL canonicalization is idempotent on the tested URL forms: for
every valid 11-character id and every extra-query suffix (no fragment
separator), applying `clean_video_url` twice to a watch link with extra
query parameters, a `youtu.be` short link, or a `/shorts/` path yields the
same result as applying it once. -/
theorem clean_video_url_idem (id extra : List Char) (hlen : id.length = 11)
    (hvid : ∀ c ∈ id, isVidChar c = true) (hx : '#' ∉ extra) :
    (clean_video_url (clean_video_url
        ("https://www.youtube.com/watch?v=".toList ++ (id ++ '&' :: extra)))
      = clean_video_url ("https://www.youtube.com/watch?v=".toList ++ (id ++ '&' :: extra)))
    ∧ (clean_video_url (clean_video_url ("https://youtu.be/".toList ++ id))
      = clean_video_url ("https://youtu.be/".toList ++ id))
    ∧ (clean_video_url (clean_video_url ("https://www.youtube.com/shorts/".toList ++ id))
      = clean_video_url ("https://www.youtube.com/shorts/".toList ++ id)) := by
  have hne : id ≠ [] := by
    intro h; rw [h] at hlen; simp at hlen
  have hfix : clean_video_url ("https://www.youtube.com/watch?v=".toList ++ id)
      = "https://www.youtube.com/watch?v=".toList ++ id := by
    have := clean_watch [] hne hvid (Or.inl rfl)
    rwa [List.append_nil] at this
  refine ⟨?_, ?_, ?_⟩
  · rw [clean_watch ('&' :: extra) hne hvid (Or.inr ⟨extra, rfl, hx⟩), hfix]
  · rw [clean_ytbe hne hvid, hfix]
  · rw [clean_shorts hlen hvid, clean_shorts hlen hvid]

/-- Witness for C8 at a concrete id and extra-parameter suffix. -/
theorem clean_video_url_idem_witness :
    (clean_video_url (clean_video_url
        ("https://www.youtube.com/watch?v=".toList ++ ("dQw4w9WgXcQ".toList ++ '&' :: "t=42s".toList)))
      = clean_video_url ("https://www.youtube.com/watch?v=".toList ++ ("dQw4w9WgXcQ".toList ++ '&' :: "t=42s".toList)))
    ∧ (clean_video_url (clean_video_url ("https://youtu.be/".toList ++ "dQw4w9WgXcQ".toList))
      = clean_video_url ("https://youtu.be/".toList ++ "dQw4w9WgXcQ".toList))
    ∧ (clean_video_url (clean_video_url ("https://www.youtube.com/shorts/".toList ++ "dQw4w9WgXcQ".toList))
      = clean_video_url ("https://www.youtube.com/shorts/".toList ++ "dQw4w9WgXcQ".toList)) :=
  clean_video_url_idem "dQw4w9WgXcQ".toList "t=42s".toList (by decide) (by decide) (by decide)

/-! ## C9: identifier extraction -/

/-- C9 counterexample: `extract_video_id` successfully extracts an
identifier from the `youtu.be` link `https://youtu.be/abc`, but the
extracted token `abc` has 3 characters, not 11 — the `youtu.be` (and
watch-`v`) branches return the raw token without length validation. -/
theorem extract_video_id_len_cex :
    extract_video_id "https://youtu.be/abc".toList = some "abc".toList
    ∧ extract_video_id "https://www.youtube.com/watch?v=abc".toList = some "abc".toList
    ∧ ("abc".toList).length ≠ 11 := by
  refine ⟨?_, ?_, by decide⟩ <;> decide

/-- C9 amended: the identifier extracted from a `/shorts/` path is always
an 11-character token over `[A-Za-z0-9_-]`, and the three canonical URL
surface forms carrying the same valid identifier all extract exactly that
identifier; identifiers taken from `youtu.be` or watch-`v` URLs are
returned verbatim and may have any length (see the counterexample). -/
theorem extract_video_id_amended (s id idv : List Char)
    (hs : findShortsIdL s = some id)
    (hlen : idv.length = 11) (hvid : ∀ c ∈ idv, isVidChar c = true) :
    (id.length = 11 ∧ ∀ c ∈ id, isVidChar c = true)
    ∧ extract_video_id ("https://www.youtube.com/watch?v=".toList ++ idv) = some idv
    ∧ extract_video_id ("https://www.youtube.com/shorts/".toList ++ idv) = some idv
    ∧ extract_video_id ("https://youtu.be/".toList ++ idv) = some idv := by
  have hne : idv ≠ [] := by
    intro h; rw [h] at hlen; simp at hlen
  refine ⟨findShortsIdL_some_spec hs, ?_, ?_, ?_⟩
  · -- watch form
    have hp := pyUrlparse_watch (s := idv) (not_mem_of_vid hvid (by decide))
    have f2 : containsL "youtu.be".toList "www.youtube.com".toList = false := by decide
    have f3 : containsL "/watch".toList "/watch".toList = true := by decide
    have f4 : ("v=".toList ++ idv) ≠ [] := lit_append_ne_nil _ (by decide)
    have f5 : parse_qs_v ("v=".toList ++ idv) = some idv := by
      rw [show "v=".toList ++ idv = 'v' :: '=' :: idv from rfl]
      exact parse_qs_v_id hvid hne
    simp only [extract_video_id, hp, f2, f3, f4, f5]
    simp
  · -- shorts form
    have hp := pyUrlparse_shorts (s := idv)
      (not_mem_of_vid hvid (by decide)) (not_mem_of_vid hvid (by decide))
    have f1 : findShortsIdL ("/shorts/".toList ++ idv) = some idv :=
      findShortsIdL_canonical hlen hvid
    have f2 : containsL "youtu.be".toList "www.youtube.com".toList = false := by decide
    simp only [extract_video_id, hp, f1, f2]
    simp
  · -- youtu.be form
    have hp := pyUrlparse_ytbe (s := idv)
      (not_mem_of_vid hvid (by decide)) (not_mem_of_vid hvid (by decide))
    have f2 : containsL "youtu.be".toList "youtu.be".toList = true := by decide
    have hns : ∀ c ∈ idv, (c == '/') = false := by
      intro c hc
      have h1 := hvid c hc
      have : c ≠ '/' := by
        intro he; rw [he] at h1; exact absurd h1 (by decide)
      simpa using this
    have f3 : stripSlashes ('/' :: idv) = idv := by
      unfold stripSlashes
      rw [List.dropWhile_cons]
      simp only [show (('/' : Char) == '/') = true from rfl, if_true]
      rw [dropWhile_eq_self_of_forall hns,
        dropWhile_eq_self_of_forall (fun c hc => hns c (List.mem_reverse.1 hc)),
        List.reverse_reverse]
    have f4 : firstSegment idv = idv := firstSegment_vid hvid
    simp only [extract_video_id, hp, f2, f3, f4]
    simp

/-- Witness for the amended C9 at concrete inputs. -/
theorem extract_video_id_amended_witness :
    (("dQw4w9WgXcQ".toList).length = 11 ∧ ∀ c ∈ "dQw4w9WgXcQ".toList, isVidChar c = true)
    ∧ extract_video_id ("https://www.youtube.com/watch?v=".toList ++ "dQw4w9WgXcQ".toList)
        = some "dQw4w9WgXcQ".toList
    ∧ extract_video_id ("https://www.youtube.com/shorts/".toList ++ "dQw4w9WgXcQ".toList)
        = some "dQw4w9WgXcQ".toList
    ∧ extract_video_id ("https://youtu.be/".toList ++ "dQw4w9WgXcQ".toList)
        = some "dQw4w9WgXcQ".toList :=
  extract_video_id_amended "/shorts/dQw4w9WgXcQ".toList "dQw4w9WgXcQ".toList
    "dQw4w9WgXcQ".toList (by decide) (by decide) (by decide)

/-! ## C6: count-text parsing -/

lemma asciiLower_isDigit_false {c : Char} (h : c.isDigit = false) :
    (asciiLower c).isDigit = false := by
  unfold asciiLower
  split
  · rename_i hup
    have hv : (c.toNat + 32).isValidChar := by
      constructor
      omega
    have ht : (Char.ofNat (c.toNat + 32)).toNat = c.toNat + 32 := by
      rw [Char.ofNat, dif_pos hv]
      simp [Char.ofNatAux, Char.toNat, UInt32.toNat, UInt32.ofNatCore]
    rw [Char.isDigit]
    have h57 : decide ((Char.ofNat (c.toNat + 32)).val ≤ 57) = false := by
      rw [decide_eq_false_iff_not]
      intro hle
      rw [UInt32.le_def, BitVec.le_def] at hle
      have h2 : (Char.ofNat (c.toNat + 32)).toNat ≤ 57 := hle
      omega
    simp [h57]
  · exact h

lemma stripWS_subset {s : List Char} : ∀ c ∈ stripWS s, c ∈ s := by
  intro c hc
  unfold stripWS at hc
  have h1 := List.mem_reverse.1 hc
  have h2 := (List.dropWhile_sublist _).subset h1
  have h3 := List.mem_reverse.1 h2
  exact (List.dropWhile_sublist _).subset h3

lemma findNumToken_run_subset : ∀ {t run : List Char} {suf : Option Char},
    findNumToken t = some (run, suf) → ∀ c ∈ run, c ∈ t := by
  intro t
  induction t with
  | nil => intro run suf h; simp [findNumToken] at h
  | cons c cs ih =>
    intro run suf h
    rw [findNumToken] at h
    by_cases hn : isNumChar c
    · rw [if_pos hn] at h
      simp only [Option.some.injEq, Prod.mk.injEq] at h
      intro d hd
      rw [← h.1] at hd
      exact (List.takeWhile_sublist _).subset hd
    · rw [if_neg hn] at h
      intro d hd
      exact List.mem_cons_of_mem c (ih h d hd)

lemma pyFloatParse_none_of_no_digit {s : List Char}
    (h : ∀ c ∈ s, c.isDigit = false) : pyFloatParse s = none := by
  unfold pyFloatParse
  rw [if_neg]
  rintro ⟨-, -, hany⟩
  rcases List.any_eq_true.1 hany with ⟨c, hc, hcd⟩
  rw [h c hc] at hcd
  simp at hcd

lemma parse_count_core_none {t : List Char} (ht : ∀ c ∈ t, c.isDigit = false) :
    parse_count_core t = none := by
  unfold parse_count_core
  cases hft : findNumToken t with
  | none =>
    have hd : t.filter Char.isDigit = [] :=
      List.filter_eq_nil_iff.2 (fun c hc => by simp [ht c hc])
    simp [hd]
  | some rs =>
    obtain ⟨run, suf⟩ := rs
    have hrun : ∀ c ∈ run, c.isDigit = false :=
      fun c hc => ht c (findNumToken_run_subset hft c hc)
    simp [pyFloatParse_none_of_no_digit hrun]

/-- C6: the count-text parser maps `"1.2K"` to `1200`, `"3M"` to
`3000000`, `"12,345"` to `12345`, and every empty or digit-free input
(such as `"abc"`) to `None` — never zero. -/
theorem parse_count_text_spec (s : List Char) (hnd : ∀ c ∈ s, c.isDigit = false) :
    parse_count_text_to_int "1.2K".toList = some 1200
    ∧ parse_count_text_to_int "3M".toList = some 3000000
    ∧ parse_count_text_to_int "12,345".toList = some 12345
    ∧ parse_count_text_to_int "".toList = none
    ∧ parse_count_text_to_int "abc".toList = none
    ∧ parse_count_text_to_int s = none := by
  refine ⟨by decide, by decide, by decide, by decide, by decide, ?_⟩
  by_cases hs : s = []
  · rw [hs]; rfl
  · unfold parse_count_text_to_int
    rw [if_neg hs]
    apply parse_count_core_none
    intro c hc
    have hc2 := (List.filter_sublist _).subset hc
    have hc3 := (List.filter_sublist _).subset hc2
    have hc4 := stripWS_subset c hc3
    rcases List.mem_map.1 hc4 with ⟨d, hd, hde⟩
    rw [← hde]
    exact asciiLower_isDigit_false (hnd d hd)

/-- Witness for C6 with the digit-free input `"abc"` (plus the concrete
table values). -/
theorem parse_count_text_spec_witness :
    parse_count_text_to_int "1.2K".toList = some 1200
    ∧ parse_count_text_to_int "3M".toList = some 3000000
    ∧ parse_count_text_to_int "12,345".toList = some 12345
    ∧ parse_count_text_to_int "".toList = none
    ∧ parse_count_text_to_int "abc".toList = none
    ∧ parse_count_text_to_int "xyz#!".toList = none :=
  parse_count_text_spec "xyz#!".toList (by decide)

/-- C7: duration normalisation maps the machine-readable code
`"PT1H2M3S"` to `3723` seconds, and the colon display strings `"10:05"`
to `605` and `"1:02:03"` to `3723`. -/
theorem duration_parsing_spec :
    parse_iso8601_duration "PT1H2M3S".toList = some 3723
    ∧ parse_duration_text_dom "10:05".toList = some 605
    ∧ parse_duration_text_dom "1:02:03".toList = some 3723 := by
  refine ⟨?_, ?_, ?_⟩ <;> decide

/-! ## C1/C10: `save_dataset` deduplication -/

lemma countVid_cons (v : List Char) (it : DataItem) (l : List DataItem) :
    countVid v (it :: l) = (if getVid it = some v then 1 else 0) + countVid v l := by
  unfold countVid
  rw [List.filter_cons]
  by_cases h : getVid it = some v
  · simp [h, Nat.add_comm]
  · simp [h]

lemma countVid_append (v : List Char) (a b : List DataItem) :
    countVid v (a ++ b) = countVid v a + countVid v b := by
  unfold countVid
  rw [List.filter_append, List.length_append]

lemma save_dataset_saved_mono (items : List DataItem) : ∀ (saved : List (List Char))
    (x : List Char), x ∈ saved → x ∈ (save_dataset saved items).1 := by
  induction items with
  | nil => intro saved x hx; simpa [save_dataset] using hx
  | cons it rest ih =>
    intro saved x hx
    cases hv : getVid it with
    | none => simpa only [save_dataset, hv] using ih saved x hx
    | some v =>
      by_cases hm : v ∈ saved
      · simpa only [save_dataset, hv, if_pos hm] using ih saved x hx
      · simp only [save_dataset, hv, if_neg hm]
        exact ih (v :: saved) x (List.mem_cons_of_mem v hx)

lemma save_dataset_count_zero (items : List DataItem) : ∀ (v : List Char)
    (saved : List (List Char)), v ∈ saved → countVid v (save_dataset saved items).2 = 0 := by
  induction items with
  | nil => intro v saved _; simp [save_dataset, countVid]
  | cons it rest ih =>
    intro v saved hv
    cases hgv : getVid it with
    | none =>
      have hne : getVid it ≠ some v := by rw [hgv]; simp
      simp only [save_dataset, hgv]
      rw [countVid_cons, if_neg hne, ih v saved hv]
    | some w =>
      by_cases hm : w ∈ saved
      · simp only [save_dataset, hgv, if_pos hm]
        exact ih v saved hv
      · simp only [save_dataset, hgv, if_neg hm]
        have hwv : w ≠ v := fun he => hm (he ▸ hv)
        have hne : getVid it ≠ some v := by rw [hgv]; simpa using hwv
        rw [countVid_cons, if_neg hne, ih v (w :: saved) (List.mem_cons_of_mem w hv)]

lemma save_dataset_count_le (items : List DataItem) : ∀ (v : List Char)
    (saved : List (List Char)),
    countVid v (save_dataset saved items).2 ≤ 1
    ∧ (1 ≤ countVid v (save_dataset saved items).2 → v ∈ (save_dataset saved items).1) := by
  induction items with
  | nil => intro v saved; simp [save_dataset, countVid]
  | cons it rest ih =>
    intro v saved
    cases hgv : getVid it with
    | none =>
      have hne : getVid it ≠ some v := by rw [hgv]; simp
      simp only [save_dataset, hgv]
      rw [countVid_cons, if_neg hne]
      refine ⟨by have := (ih v saved).1; omega, ?_⟩
      intro h1
      exact (ih v saved).2 (by omega)
    | some w =>
      by_cases hm : w ∈ saved
      · simp only [save_dataset, hgv, if_pos hm]
        exact ih v saved
      · simp only [save_dataset, hgv, if_neg hm]
        by_cases hwv : w = v
        · subst hwv
          rw [countVid_cons, if_pos hgv]
          have hz : countVid w (save_dataset (w :: saved) rest).2 = 0 :=
            save_dataset_count_zero rest w (w :: saved) (List.mem_cons_self w saved)
          refine ⟨by omega, ?_⟩
          intro _
          exact save_dataset_saved_mono rest (w :: saved) w (List.mem_cons_self w saved)
        · have hne : getVid it ≠ some v := by rw [hgv]; simpa using hwv
          rw [countVid_cons, if_neg hne]
          refine ⟨by have := (ih v (w :: saved)).1; omega, ?_⟩
          intro h1
          exact (ih v (w :: saved)).2 (by omega)

lemma runSave_saved_mono (bs : List (List DataItem)) : ∀ (saved : List (List Char))
    (x : List Char), x ∈ saved → x ∈ (runSave saved bs).1 := by
  induction bs with
  | nil => intro saved x hx; simpa [runSave] using hx
  | cons b rest ih =>
    intro saved x hx
    simp only [runSave]
    exact ih _ x (save_dataset_saved_mono b saved x hx)

lemma runSave_count_zero (bs : List (List DataItem)) : ∀ (v : List Char)
    (saved : List (List Char)), v ∈ saved → countVid v (runSave saved bs).2 = 0 := by
  induction bs with
  | nil => intro v saved _; simp [runSave, countVid]
  | cons b rest ih =>
    intro v saved hv
    simp only [runSave]
    rw [countVid_append, save_dataset_count_zero b v saved hv,
      ih v _ (save_dataset_saved_mono b saved v hv)]

lemma runSave_count_le (bs : List (List DataItem)) : ∀ (v : List Char)
    (saved : List (List Char)),
    countVid v (runSave saved bs).2 ≤ 1
    ∧ (1 ≤ countVid v (runSave saved bs).2 → v ∈ (runSave saved bs).1) := by
  induction bs with
  | nil => intro v saved; simp [runSave, countVid]
  | cons b rest ih =>
    intro v saved
    simp only [runSave]
    rw [countVid_append]
    rcases Nat.eq_zero_or_pos (countVid v (save_dataset saved b).2) with h0 | hpos
    · rw [h0]
      refine ⟨by simpa using (ih v (save_dataset saved b).1).1, ?_⟩
      intro h1
      exact (ih v _).2 (by omega)
    · have hc1 : countVid v (save_dataset saved b).2 ≤ 1 :=
        (save_dataset_count_le b v saved).1
      have hmem : v ∈ (save_dataset saved b).1 :=
        (save_dataset_count_le b v saved).2 hpos
      have hz : countVid v (runSave (save_dataset saved b).1 rest).2 = 0 :=
        runSave_count_zero rest v _ hmem
      refine ⟨by omega, ?_⟩
      intro _
      exact runSave_saved_mono rest _ v hmem

/-- C1: run-scoped dedup — over a whole run (a sequence of `save_dataset`
calls starting from an empty `SAVED_IDS`), at most one forwarded record
carries any given identifier; within one call, a record whose id is
already saved is dropped, a record with a new id is forwarded and its id
added; and the saved-ids set only grows across the run. -/
theorem save_dataset_dedup (v : List Char) (batches : List (List DataItem))
    (saved : List (List Char)) (items : List DataItem) (it : DataItem) :
    countVid v (runSave [] batches).2 ≤ 1
    ∧ (getVid it = some v → v ∈ saved →
        save_dataset saved (it :: items) = save_dataset saved items)
    ∧ (getVid it = some v → v ∉ saved →
        save_dataset saved (it :: items)
          = ((save_dataset (v :: saved) items).1, it :: (save_dataset (v :: saved) items).2))
    ∧ (∀ x ∈ saved, x ∈ (runSave saved batches).1) := by
  refine ⟨(runSave_count_le batches v []).1, ?_, ?_,
    fun x hx => runSave_saved_mono batches saved x hx⟩
  · intro hgv hm
    simp only [save_dataset, hgv, if_pos hm]
  · intro hgv hm
    simp only [save_dataset, hgv, if_neg hm]

/-- Witness for C1 at a concrete two-batch run re-emitting the same id. -/
theorem save_dataset_dedup_witness :
    countVid "x".toList
        (runSave [] [[⟨some "x".toList, none, 0⟩], [⟨some "x".toList, none, 1⟩]]).2 ≤ 1
    ∧ save_dataset ["x".toList] [⟨some "x".toList, none, 0⟩] = save_dataset ["x".toList] []
    ∧ save_dataset [] [⟨some "x".toList, none, 0⟩]
        = ((save_dataset ["x".toList] []).1,
            (⟨some "x".toList, none, 0⟩ : DataItem) :: (save_dataset ["x".toList] []).2)
    ∧ "y".toList ∈ (runSave ["y".toList]
        [[⟨some "x".toList, none, 0⟩], [⟨some "x".toList, none, 1⟩]]).1 := by
  have h1 := save_dataset_dedup "x".toList
    [[⟨some "x".toList, none, 0⟩], [⟨some "x".toList, none, 1⟩]]
    ["x".toList] [] ⟨some "x".toList, none, 0⟩
  have h2 := save_dataset_dedup "x".toList
    [[⟨some "x".toList, none, 0⟩], [⟨some "x".toList, none, 1⟩]]
    [] [] ⟨some "x".toList, none, 0⟩
  have h3 := save_dataset_dedup "x".toList
    [[⟨some "x".toList, none, 0⟩], [⟨some "x".toList, none, 1⟩]]
    ["y".toList] [] ⟨some "x".toList, none, 0⟩
  exact ⟨h1.1, h1.2.1 (by decide) (by decide), h2.2.2.1 (by decide) (by decide),
    h3.2.2.2 "y".toList (by decide)⟩

/-- C10: a record whose `id` and `video_id` are both absent/null bypasses
deduplication entirely — it is always forwarded, never added to the
saved-ids set, and can be emitted more than once in one call (and hence
per run). -/
theorem save_dataset_no_id_bypass (saved : List (List Char)) (it : DataItem)
    (h1 : it.id = none) (h2 : it.video_id = none) :
    save_dataset saved [it, it] = (saved, [it, it])
    ∧ (save_dataset saved [it]).1 = saved := by
  have hv : getVid it = none := by
    simp [getVid, pyTruthy, h1, h2]
  constructor
  · simp [save_dataset, hv]
  · simp [save_dataset, hv]

/-- Witness for C10 at a concrete identifier-less record. -/
theorem save_dataset_no_id_bypass_witness :
    save_dataset ["a".toList] [⟨none, none, 7⟩, ⟨none, none, 7⟩]
      = (["a".toList], [⟨none, none, 7⟩, ⟨none, none, 7⟩])
    ∧ (save_dataset ["a".toList] [⟨none, none, 7⟩]).1 = ["a".toList] :=
  save_dataset_no_id_bypass ["a".toList] ⟨none, none, 7⟩ rfl rfl

/-! ## C3: the global result cap -/

lemma mainUrlLoop_of_ge (globalMax : Nat) (counts : List Nat) (total : Nat)
    (h : total ≥ globalMax) : mainUrlLoop globalMax counts total = total := by
  cases counts with
  | nil => rfl
  | cons n rest => simp [mainUrlLoop, if_pos h]

lemma mainUrlLoop_overshoot (globalMax B : Nat) (counts : List Nat) :
    ∀ total, (∀ n ∈ counts, n ≤ B) → total < globalMax →
    mainUrlLoop globalMax counts total ≤ globalMax - 1 + B := by
  induction counts with
  | nil =>
    intro t _ ht
    simp only [mainUrlLoop]
    omega
  | cons n rest ih =>
    intro t hB ht
    simp only [mainUrlLoop, if_neg (by omega : ¬ t ≥ globalMax)]
    by_cases h2 : t + n ≥ globalMax
    · rw [mainUrlLoop_of_ge _ _ _ h2]
      have := hB n (List.mem_cons_self n rest)
      omega
    · exact ih (t + n) (fun m hm => hB m (List.mem_cons_of_mem n hm)) (by omega)

/-- C3 counterexample: with a global cap of 2, a first target yielding 1
result and a second (in-flight when the cap is crossed) yielding 2, the
orchestrator's accumulation loop ends at 3 results — the final count
exceeds the configured global cap. -/
theorem global_cap_exceeded_cex :
    mainUrlLoop 2 [1, 2] 0 = 3 ∧ ¬ mainUrlLoop 2 [1, 2] 0 ≤ 2 := by
  decide

/-- C3 amended: the orchestrator stops dispatching new targets once the
running total has reached the global cap (an already-met cap leaves the
total unchanged), and when every target's own yield is bounded by `B`
(e.g. a channel target is bounded by its `maxResults` truncation), the
final total is bounded by `globalMax - 1 + B` — not by `globalMax`
itself. -/
theorem main_loop_cap_behavior (globalMax B total : Nat) (counts : List Nat)
    (hB : ∀ n ∈ counts, n ≤ B) :
    (total ≥ globalMax → mainUrlLoop globalMax counts total = total)
    ∧ (total < globalMax → mainUrlLoop globalMax counts total ≤ globalMax - 1 + B)
    ∧ ∀ (allUrls : List (List Char)) (extractOk : List Char → Bool),
        (scrape_channel_take allUrls globalMax extractOk).length ≤ globalMax := by
  refine ⟨fun h => mainUrlLoop_of_ge globalMax counts total h,
    fun h => mainUrlLoop_overshoot globalMax B counts total hB h, ?_⟩
  intro allUrls extractOk
  unfold scrape_channel_take
  calc ((allUrls.take globalMax).filter extractOk).length
      ≤ (allUrls.take globalMax).length := (List.filter_sublist _).length_le
    _ ≤ globalMax := by rw [List.length_take]; omega

/-- Witness for the amended C3 at concrete yields. -/
theorem main_loop_cap_behavior_witness :
    mainUrlLoop 3 [2, 2] 3 = 3
    ∧ mainUrlLoop 3 [2, 2] 0 ≤ 3 - 1 + 2
    ∧ (scrape_channel_take ["u".toList, "v".toList, "w".toList, "x".toList] 3
        (fun _ => true)).length ≤ 3 := by
  have h := main_loop_cap_behavior 3 2 0 [2, 2] (by decide)
  have h2 := main_loop_cap_behavior 3 2 3 [2, 2] (by decide)
  exact ⟨h2.1 (by decide), h.2.1 (by decide), h.2.2 _ _⟩

/-! ## C4: the metadata-resolution error boundary -/

/-- C4: resolution never propagates an internal failure: the resolver's
(total) return type is a record, and whenever the Playwright extraction
body raises — for a shorts URL or a watch URL alike — the caught
exception produces exactly the minimal record carrying the identifier,
the URL and `data_source = "error"`. -/
theorem resolver_error_boundary (video_id url : List Char) :
    extract_video_metadata_hybrid video_id url false true
        (Except.error ()) (Except.error ())
      = ⟨video_id, url, DataSource.errorSource⟩
    ∧ extract_shorts_metadata video_id url false (Except.error ())
      = ⟨video_id, url, DataSource.errorSource⟩ := by
  constructor
  · by_cases h : is_shorts_url url
    · simp [extract_video_metadata_hybrid, extract_shorts_metadata, h]
    · simp [extract_video_metadata_hybrid, h]
  · rfl

/-! ## C5: unavailability phrases force the `Unavailable` outcome -/

lemma unavailablePhraseHit_ne_nil {t : List Char}
    (h : unavailablePhraseHit t = true) : t ≠ [] := by
  intro he
  subst he
  revert h
  decide

lemma is_page_unavailable_of_phrase {p : Page}
    (h : unavailablePhraseHit (lowerL p.bodyText) = true) :
    is_page_unavailable p = true := by
  have hne : p.bodyText ≠ [] := by
    intro he
    apply unavailablePhraseHit_ne_nil h
    rw [he]
    rfl
  have hie : p.bodyText.isEmpty = false := by
    cases hb : p.bodyText with
    | nil => exact absurd hb hne
    | cons c cs => rfl
  unfold is_page_unavailable
  rw [h, hie]
  simp

/-- C5: for every page whose rendered body text contains one of the known
unavailability phrases, `goto_and_ready` (without a stop request) returns
the `Unavailable` outcome regardless of every other readiness signal, and
the harvesting caller `collect_urls_from_page` returns no candidates for
that page. -/
theorem unavailable_phrase_unavailable (p : Page)
    (h : unavailablePhraseHit (lowerL p.bodyText) = true) :
    goto_and_ready false p = ReadyOutcome.Unavailable
    ∧ ∀ (domAt : Nat → List (List Char)) (pattern : List Char) (cap : Nat)
        (seen : List (List Char)),
        (collect_urls_from_page p domAt pattern cap seen).1 = [] := by
  have hu := is_page_unavailable_of_phrase h
  constructor
  · simp [goto_and_ready, hu]
  · intro domAt pattern cap seen
    unfold collect_urls_from_page
    by_cases hc : cap = 0
    · simp [hc]
    · simp [hc, hu]

/-- Witness for C5: a page carrying the phrase `"sorry about that"` in
its body while every other readiness signal is positive. -/
theorem unavailable_phrase_unavailable_witness :
    goto_and_ready false ⟨false, "sorry about that".toList, [], true, true, true⟩
      = ReadyOutcome.Unavailable
    ∧ (collect_urls_from_page ⟨false, "sorry about that".toList, [], true, true, true⟩
        (fun _ => []) "/watch".toList 5 []).1 = [] := by
  have h := unavailable_phrase_unavailable
    ⟨false, "sorry about that".toList, [], true, true, true⟩ (by decide)
  exact ⟨h.1, h.2 (fun _ => []) "/watch".toList 5 []⟩

/-! ## C2: the harvesting loop honours its cap and the shared seen set -/

lemma considerUrl_inv (pattern : List Char) (cap : Nat) (seen0 : List (List Char))
    (st : List (List Char) × List (List Char)) (full : List Char)
    (hlt : st.2.length < cap) (hfresh : ∀ u ∈ st.2, u ∉ seen0)
    (hsub : ∀ u ∈ seen0, u ∈ st.1) :
    (considerUrl pattern st full).2.length ≤ cap
    ∧ (∀ u ∈ (considerUrl pattern st full).2, u ∉ seen0)
    ∧ (∀ u ∈ seen0, u ∈ (considerUrl pattern st full).1) := by
  cases hx : extract_video_id full with
  | none =>
    simp only [considerUrl, hx]
    exact ⟨by omega, hfresh, hsub⟩
  | some w =>
    simp only [considerUrl, hx]
    by_cases hc : containsL pattern full ∧ full ∉ st.1
    · rw [if_pos hc]
      refine ⟨by simp; omega, ?_, ?_⟩
      · intro u hu
        rcases List.mem_append.1 hu with hu1 | hu2
        · exact hfresh u hu1
        · have : u = full := by simpa using hu2
          subst this
          exact fun hin => hc.2 (hsub u hin)
      · intro u hu
        exact List.mem_cons_of_mem full (hsub u hu)
    · rw [if_neg hc]
      exact ⟨by omega, hfresh, hsub⟩

lemma processHref_inv (pattern : List Char) (cap : Nat) (seen0 : List (List Char))
    (st : List (List Char) × List (List Char)) (h : List Char)
    (hlen : st.2.length ≤ cap) (hfresh : ∀ u ∈ st.2, u ∉ seen0)
    (hsub : ∀ u ∈ seen0, u ∈ st.1) :
    (processHref pattern cap st h).2.length ≤ cap
    ∧ (∀ u ∈ (processHref pattern cap st h).2, u ∉ seen0)
    ∧ (∀ u ∈ seen0, u ∈ (processHref pattern cap st h).1) := by
  unfold processHref
  by_cases hge : st.2.length ≥ cap
  · rw [if_pos hge]
    exact ⟨hlen, hfresh, hsub⟩
  · rw [if_neg hge]
    exact considerUrl_inv pattern cap seen0 st _ (by omega) hfresh hsub

lemma foldl_processHref_inv (pattern : List Char) (cap : Nat)
    (seen0 : List (List Char)) (hrefs : List (List Char)) :
    ∀ st, st.2.length ≤ cap → (∀ u ∈ st.2, u ∉ seen0) → (∀ u ∈ seen0, u ∈ st.1) →
    ((hrefs.foldl (processHref pattern cap) st).2.length ≤ cap
    ∧ (∀ u ∈ (hrefs.foldl (processHref pattern cap) st).2, u ∉ seen0)
    ∧ (∀ u ∈ seen0, u ∈ (hrefs.foldl (processHref pattern cap) st).1)) := by
  induction hrefs with
  | nil => intro st h1 h2 h3; exact ⟨h1, h2, h3⟩
  | cons h hs ih =>
    intro st h1 h2 h3
    rw [List.foldl_cons]
    obtain ⟨g1, g2, g3⟩ := processHref_inv pattern cap seen0 st h h1 h2 h3
    exact ih _ g1 g2 g3

lemma collectRounds_inv (domAt : Nat → List (List Char)) (pattern : List Char)
    (cap : Nat) (seen0 : List (List Char)) : ∀ (fuel round : Nat)
    (st : List (List Char) × List (List Char)),
    st.2.length ≤ cap → (∀ u ∈ st.2, u ∉ seen0) → (∀ u ∈ seen0, u ∈ st.1) →
    ((collectRounds domAt pattern cap fuel round st).2.length ≤ cap
    ∧ ∀ u ∈ (collectRounds domAt pattern cap fuel round st).2, u ∉ seen0) := by
  intro fuel
  induction fuel with
  | zero => intro round st h1 h2 _; exact ⟨h1, h2⟩
  | succ n ih =>
    intro round st h1 h2 h3
    simp only [collectRounds]
    by_cases hlt : st.2.length < cap
    · rw [if_pos hlt]
      obtain ⟨g1, g2, g3⟩ := foldl_processHref_inv pattern cap seen0 (domAt round) st h1 h2 h3
      by_cases hge : ((domAt round).foldl (processHref pattern cap) st).2.length ≥ cap
      · rw [if_pos hge]
        exact ⟨g1, g2⟩
      · rw [if_neg hge]
        exact ih (round + 1) _ g1 g2 g3
    · rw [if_neg hlt]
      exact ⟨h1, h2⟩

/-- C2: the harvesting loop returns at most `cap` candidate URLs, and no
returned candidate was already present in the caller-shared seen set
supplied to the harvester. -/
theorem collect_urls_cap_and_fresh (p : Page) (domAt : Nat → List (List Char))
    (pattern : List Char) (cap : Nat) (seen : List (List Char)) (u : List Char)
    (hu : u ∈ (collect_urls_from_page p domAt pattern cap seen).1) :
    (collect_urls_from_page p domAt pattern cap seen).1.length ≤ cap
    ∧ u ∉ seen := by
  unfold collect_urls_from_page at hu ⊢
  by_cases hc : cap = 0
  · rw [if_pos hc] at hu
    simp at hu
  · rw [if_neg hc] at hu ⊢
    by_cases hup : is_page_unavailable p
    · rw [if_pos hup] at hu
      simp at hu
    · rw [if_neg hup] at hu ⊢
      obtain ⟨g1, g2⟩ := collectRounds_inv domAt pattern cap seen 60 0 (seen, [])
        (by simp) (by simp) (by intro x hx; simpa using hx)
      exact ⟨g1, g2 u hu⟩

/-- Witness for C2: one rendered watch anchor, cap 1, empty seen set. -/
theorem collect_urls_cap_and_fresh_witness :
    (collect_urls_from_page ⟨false, [], [], true, false, false⟩
        (fun _ => ["https://www.youtube.com/watch?v=abcdefghijk".toList])
        "/watch".toList 1 []).1.length ≤ 1
    ∧ "https://www.youtube.com/watch?v=abcdefghijk".toList ∉ ([] : List (List Char)) := by
  apply collect_urls_cap_and_fresh
  decide

end YtScrape
